import Mathlib

/-!
# Verification of the `itemid` 64-bit identifier library

A shallow embedding of the `itemid` JavaScript module (src/itemid.js and
its later revision), which packs a 44-bit millisecond timestamp, a 12-bit
counter and an 8-bit machine id into one 64-bit identifier stored as two
32-bit signed halves, plus its textual codec, accessors, ordering,
generator and boundary builder.

Modelling conventions:
* JavaScript strings are `List Char`.
* JavaScript numbers are modelled exactly.  Integer quantities are `Nat`
  or `Int`; general numeric values (which in JavaScript are IEEE-754
  doubles and hence dyadic rationals) are modelled by `JsNum`, a dyadic
  rational `mant / 2 ^ scale`.  Where the source performs a double
  operation whose exact result is representable in a 53-bit significand
  (all parsing, formatting, counter and bit-field arithmetic here), the
  model computes it exactly; the one place where the source's double
  arithmetic rounds — the addition inside `getTimestamp` — is modelled
  with explicit IEEE-754 round-to-nearest-even semantics (`floorFl53`).
* A thrown JavaScript `Error` is `Except.error ()`.
* Process-wide mutable state (the generator counter and the stored
  machine-id string) is threaded explicitly through `GenState`.
-/

namespace ItemIdKit

/-- JavaScript digit character for a digit value (`0`–`9` then `a`–`z`),
as produced by `Number.prototype.toString(radix)`. -/
def baseDigitChar (d : Nat) : Char :=
  if d < 10 then Char.ofNat (48 + d) else Char.ofNat (87 + d)

/-- Hexadecimal value of a character, accepting `0-9`, `a-f` and `A-F`
exactly as the regular expression in the source does. -/
def hexVal (c : Char) : Option Nat :=
  if 48 ≤ c.toNat ∧ c.toNat ≤ 57 then some (c.toNat - 48)
  else if 97 ≤ c.toNat ∧ c.toNat ≤ 102 then some (c.toNat - 87)
  else if 65 ≤ c.toNat ∧ c.toNat ≤ 70 then some (c.toNat - 55)
  else none

/-- Whether a character is one of `[0-9a-fA-F]`. -/
def isHexDigitChar (c : Char) : Bool :=
  (hexVal c).isSome

/-- Little-endian base-`b` digits of `n`, computed with explicit fuel so
that the kernel can evaluate it.  `baseDigitsAux b fuel n = Nat.digits b n`
whenever `n ≤ fuel` (proved below). -/
def baseDigitsAux (b : Nat) : Nat → Nat → List Nat
  | 0, _ => []
  | fuel + 1, n => if n = 0 then [] else n % b :: baseDigitsAux b fuel (n / b)

/-- Big-endian base-`b` digit values of `n`, with `[0]` for zero, matching
the digit sequence printed by JavaScript `Number.prototype.toString`. -/
def natDigitsBE (b n : Nat) : List Nat :=
  if n = 0 then [0] else (baseDigitsAux b n n).reverse

/-- JavaScript `n.toString(b)` for a natural number `n`. -/
def natToBaseList (b n : Nat) : List Char :=
  (natDigitsBE b n).map baseDigitChar

/-- JavaScript `n.toString(16)` for a natural number `n`. -/
def natToHexList (n : Nat) : List Char :=
  natToBaseList 16 n

/-- Numeric value of a big-endian list of base-16 digit values. -/
def valBE (ds : List Nat) : Nat :=
  Nat.ofDigits 16 ds.reverse

/-- JavaScript `s.slice(-k)`: the last `k` characters of `s`. -/
def sliceLast (k : Nat) (l : List Char) : List Char :=
  l.drop (l.length - k)

/-- Whitespace skipped by JavaScript `parseInt`. -/
def jsWhitespace (c : Char) : Bool :=
  c == ' ' || c == '\t' || c == '\n' || c == '\r'

/-- Strip an optional `0x`/`0X` marker, as `parseInt(s, 16)` does. -/
def dropHexMark (s : List Char) : List Char :=
  match s with
  | c0 :: c1 :: r => if c0 = '0' ∧ (c1 = 'x' ∨ c1 = 'X') then r else s
  | _ => s

/-- Digit values of the maximal leading run of hexadecimal characters. -/
def leadingHexVals (s : List Char) : List Nat :=
  (s.takeWhile isHexDigitChar).filterMap hexVal

/-- Unsigned part of `parseInt(s, 16)` after sign handling: strip an
optional `0x` marker, then read the maximal hexadecimal prefix;
no digits at all yields NaN (`none`). -/
def parseHexCore (s : List Char) : Option Nat :=
  let s2 := dropHexMark s
  let ds := leadingHexVals s2
  if ds = [] then none else some (valBE ds)

/-- JavaScript `parseInt(s, 16)`: skip whitespace, handle an optional
sign, then parse the maximal hexadecimal prefix; `none` models NaN. -/
def jsParseInt16 (s : List Char) : Option Int :=
  let t := s.dropWhile jsWhitespace
  match t with
  | [] => none
  | c :: r =>
    if c = '-' then (parseHexCore r).map (fun n => -(n : Int))
    else if c = '+' then (parseHexCore r).map (fun n => (n : Int))
    else (parseHexCore t).map (fun n => (n : Int))

/-- An exact JavaScript numeric value: IEEE-754 doubles are dyadic
rationals, so every number the source manipulates is some
`mant / 2 ^ scale`. -/
structure JsNum where
  mant : Int
  scale : Nat

/-- Truncation toward zero of a `JsNum`, the first step of the
JavaScript `ToInt32` coercion performed by `x | 0`. -/
def jsTruncToInt (q : JsNum) : Int :=
  if 0 ≤ q.mant then ((q.mant.toNat / 2 ^ q.scale : Nat) : Int)
  else -(((-q.mant).toNat / 2 ^ q.scale : Nat) : Int)

/-- JavaScript `ToInt32`: reduce modulo `2^32` into `[-2^31, 2^31)`.
This is what the `Long` super-constructor applies to each stored half. -/
def toInt32 (i : Int) : Int :=
  let m := i % 4294967296
  if 2147483648 ≤ m then m - 4294967296 else m

/-- Hexadecimal expansion of the fractional part `fm / 2 ^ s`, as printed
by JavaScript `Number.prototype.toString(16)`; dyadic fractions have a
finite exact expansion, obtained here with ample fuel. -/
def fracHexChars : Nat → Nat → Nat → List Char
  | 0, _, _ => []
  | fuel + 1, fm, s =>
    if fm = 0 then []
    else baseDigitChar (fm * 16 / 2 ^ s) :: fracHexChars fuel (fm * 16 % 2 ^ s) s

/-- JavaScript `q.toString(16)` for a nonnegative `JsNum`. -/
def jsNumAbsToString16 (q : JsNum) : List Char :=
  let ip := q.mant.toNat / 2 ^ q.scale
  let fm := q.mant.toNat % 2 ^ q.scale
  natToHexList ip ++ (if fm = 0 then [] else '.' :: fracHexChars 64 fm q.scale)

/-- JavaScript `q.toString(16)` for a `JsNum`. -/
def jsNumToString16 (q : JsNum) : List Char :=
  if q.mant < 0 then '-' :: jsNumAbsToString16 ⟨-q.mant, q.scale⟩
  else jsNumAbsToString16 q

/-- Number of binary digits of `n` (0 for 0), computed with explicit
fuel so that the kernel can evaluate it. -/
def bitLenAux : Nat → Nat → Nat
  | 0, _ => 0
  | fuel + 1, n => if n = 0 then 0 else bitLenAux fuel (n / 2) + 1

/-- Number of binary digits of `n` (0 for 0). -/
def bitLen (n : Nat) : Nat :=
  bitLenAux n n

/-- `n / 2 ^ s` rounded to the nearest integer, ties to even — the
rounding IEEE-754 binary arithmetic applies to a discarded tail of `s`
bits. -/
def roundHalfEven (n s : Nat) : Nat :=
  let q := n / 2 ^ s
  let r := n % 2 ^ s
  if s = 0 then n
  else if 2 * r < 2 ^ s then q
  else if 2 ^ s < 2 * r then q + 1
  else if q % 2 = 0 then q else q + 1

/-- `Math.floor` of the IEEE-754 binary64 value nearest to the exact
dyadic rational `n / 2 ^ e`: the numerator is rounded to 53 significant
bits (round to nearest, ties to even), after which the floor is taken.
For the magnitudes arising here (`n < 2 ^ 64`, values far from the
overflow and subnormal ranges) this is exactly what the double
computation produces. -/
def floorFl53 (n e : Nat) : Nat :=
  let b := bitLen n
  if b ≤ 53 then n / 2 ^ e
  else roundHalfEven n (b - 53) * 2 ^ (b - 53) / 2 ^ e

/-- An identifier value: the two 32-bit halves stored by the `Long`
superclass (`low_` and `high_`), kept in their signed representation. -/
structure ItemIdRepr where
  low : Int
  high : Int
deriving DecidableEq

/-- Unsigned reinterpretation of a stored 32-bit half, as a natural
number: `i >= 0 ? i : i + 0x100000000`. -/
def uNat (i : Int) : Nat :=
  if 0 ≤ i then i.toNat else (i + 4294967296).toNat

/-- Modelled from the spec: the `Long` helper `getLowBitsUnsigned()`,
`low_ >= 0 ? low_ : low_ + 0x100000000`, as a natural number. -/
def lowU (r : ItemIdRepr) : Nat :=
  uNat r.low

/-- The unsigned value of the stored high half. -/
def highU (r : ItemIdRepr) : Nat :=
  uNat r.high

/-- `ItemId.prototype.getCounterValue`: `(getLowBitsUnsigned() >>> 8) & 0xfff`. -/
def getCounterValue (r : ItemIdRepr) : Nat :=
  (lowU r >>> 8) &&& 0xfff

/-- `ItemId.prototype.getMachineId`: `getLowBitsUnsigned() & 0xff`. -/
def getMachineId (r : ItemIdRepr) : Nat :=
  lowU r &&& 0xff

/-- `ItemId.prototype.getTimestamp`:
`Math.floor((high * 4096) + (this.getLowBitsUnsigned() / 1048576))`
with `high` reinterpreted as unsigned, in IEEE-754 double arithmetic.
Both operands are exact doubles (`high * 4096 < 2^44` is an integer,
and dividing the 32-bit `lowU` by the power of two `2^20` is exact), so
the one rounding step is the correctly rounded addition: the double
produced is the 53-bit round-to-nearest-even of the exact sum
`(highU·2^32 + lowU) / 2^20`, which `Math.floor` then floors —
`floorFl53` applied to that numerator.  (This rounding makes the result
exceed the encoded 44-bit timestamp field by one for some low-half
values; see claim C2.) -/
def getTimestamp (r : ItemIdRepr) : Nat :=
  floorFl53 (highU r * 4294967296 + lowU r) 20

/-- The unsigned 64-bit magnitude encoded by the two halves. -/
def mag (r : ItemIdRepr) : Nat :=
  highU r * 4294967296 + lowU r

/-- Unsigned reinterpretation of one stored half, as `compare` does it:
`h >= 0 ? h : h + 0x100000000`. -/
def uHalf (i : Int) : Int :=
  if 0 ≤ i then i else i + 4294967296

/-- `ItemId.prototype.compare`: compare the unsigned high halves, then
the unsigned low halves, returning 1, -1 or 0. -/
def compareIds (a b : ItemIdRepr) : Int :=
  let thisHi := uHalf a.high
  let thatHi := uHalf b.high
  if thisHi = thatHi then
    let thisLo := uHalf a.low
    let thatLo := uHalf b.low
    if thatLo < thisLo then 1 else if thisLo < thatLo then -1 else 0
  else if thatHi < thisHi then 1 else -1

/-- `ItemId.prototype.equal`: strict equality of the stored halves. -/
def equalIds (a b : ItemIdRepr) : Bool :=
  a.high == b.high && a.low == b.low

/-- One half of `stringify`:
`h >= 0xfffffff ? h.toString(16) : (h >= 0 ? '0' + h.toString(16) : (h + 0x100000000).toString(16))`. -/
def stringifyHalf (h : Int) : List Char :=
  if 268435455 ≤ h then natToHexList h.toNat
  else if 0 ≤ h then '0' :: natToHexList h.toNat
  else natToHexList (h + 4294967296).toNat

/-- The module-private `stringify(low, high)`: high rendering first,
then low. -/
def stringify (low high : Int) : List Char :=
  stringifyHalf high ++ stringifyHalf low

/-- `valueOf` / `toJSON` / zero-argument `toString`: the canonical hex
form, `stringify(low_, high_)`. -/
def valueOf (r : ItemIdRepr) : List Char :=
  stringify r.low r.high

/-- Modelled from the spec: the generic `Long.prototype.toString(radix)`
of the `bson` library (not part of this repository), which renders the
full signed two's-complement 64-bit value in the given radix. -/
def longToStringRadix (r : ItemIdRepr) (radix : Nat) : List Char :=
  let u := mag r
  let v : Int := if 9223372036854775808 ≤ u then (u : Int) - 18446744073709551616 else (u : Int)
  if v < 0 then '-' :: natToBaseList radix (-v).toNat else natToBaseList radix v.toNat

/-- `ItemId.prototype.toString`: the canonical hex form when called with
no argument, otherwise the generic radix conversion. -/
def jsToString (r : ItemIdRepr) (radix : Option Nat) : List Char :=
  match radix with
  | none => stringify r.low r.high
  | some b => longToStringRadix r b

/-- The module's `test(id)`: the regular expression `^[0-9a-fA-F]{16}$`. -/
def jsTest (s : List Char) : Bool :=
  s.length == 16 && s.all isHexDigitChar

/-- Decimal digit value of a character. -/
def decVal (c : Char) : Option Nat :=
  if 48 ≤ c.toNat ∧ c.toNat ≤ 57 then some (c.toNat - 48) else none

/-- Modelled from the spec: `Long.fromString(id, 10)` of the external
`bson` library, used by the constructor for strings that are not 16
characters long — a base-10 string parsed with signed two's-complement
64-bit semantics and decomposed into the two 32-bit halves. -/
def specLongFromString10 (s : List Char) : Option (Int × Int) :=
  let p := match s with
    | '-' :: r => (true, r)
    | _ => (false, s)
  if p.2 = [] then none
  else if p.2.all (fun c => (decVal c).isSome) then
    let n : Nat := Nat.ofDigits 10 (p.2.filterMap decVal).reverse
    let v : Int := if p.1 then -(n : Int) else (n : Int)
    let u : Nat := (v % 18446744073709551616).toNat
    some (toInt32 ((u % 4294967296 : Nat) : Int), toInt32 ((u / 4294967296 : Nat) : Int))
  else none

/-- The one-string-argument `ItemId` constructor: a 16-character string
is split as `low = parseInt(id.slice(-8), 16)`,
`high = parseInt(id.slice(-16, -8), 16)`; any other string goes through
`Long.fromString(id, 10)`; a NaN in either half throws.  The stored
halves receive the `| 0` coercion applied by the `Long` super-constructor. -/
def itemIdFromString (s : List Char) : Except Unit ItemIdRepr :=
  if s.length = 16 then
    match jsParseInt16 (s.drop 8), jsParseInt16 (s.take 8) with
    | some lo, some hi => .ok ⟨toInt32 lo, toInt32 hi⟩
    | _, _ => .error ()
  else
    match specLongFromString10 s with
    | some (lo, hi) => .ok ⟨lo, hi⟩
    | none => .error ()

/-- A JavaScript constructor argument: either a numeric value or a value
that coerces to NaN under `Number(·)`. -/
inductive JsArg
  | num (q : JsNum)
  | nonNum

/-- The two-argument `ItemId` constructor: throw if `Number(·)` of either
argument is NaN, otherwise store the two halves through the `| 0`
coercion of the `Long` super-constructor. -/
def itemIdFromTwo (a b : JsArg) : Except Unit ItemIdRepr :=
  match a, b with
  | .num qa, .num qb => .ok ⟨toInt32 (jsTruncToInt qa), toInt32 (jsTruncToInt qb)⟩
  | _, _ => .error ()

/-- Argument of `createFromTime`: a number, or any value of another
`typeof` (which the guard rejects). -/
inductive TimeArg
  | num (q : JsNum)
  | nonNum

/-- `ItemId.createFromTime`: reject non-numbers and timestamps outside
`[0, 0xfffffffffff]`, then parse
`('00000000000' + timestamp.toString(16)).slice(-11) + '00000'`. -/
def createFromTime (arg : TimeArg) : Except Unit ItemIdRepr :=
  match arg with
  | .nonNum => .error ()
  | .num q =>
    if q.mant < 0 ∨ 17592186044415 * 2 ^ q.scale < q.mant then .error ()
    else itemIdFromString
      (sliceLast 11 (List.replicate 11 '0' ++ jsNumToString16 q) ++ List.replicate 5 '0')

/-- The module-private mutable state: the 12-bit counter
`ITEM_ID_counter` and the stored machine-id string
`ITEM_ID_machine_id` (`none` models its initial `null`). -/
structure GenState where
  counter : Nat
  machineId : Option (List Char)
deriving DecidableEq

/-- The stored machine-id value as the string JavaScript would use: the
stored string itself, or the text `null` when `ITEM_ID_machine_id` is
still `null` (string concatenation and `parseInt` both coerce `null`
to the string `null`). -/
def storedStr (st : GenState) : List Char :=
  match st.machineId with
  | some s => s
  | none => "null".data

/-- The counter rendering inside `newId`:
`(counter > 0xff ? '' : (counter > 0xf ? '0' : '00')) + counter.toString(16)`. -/
def counterHex3 (c : Nat) : List Char :=
  (if 255 < c then [] else if 15 < c then ['0'] else ['0', '0']) ++ natToHexList c

/-- The three base-16 digit values of a counter value below 4096. -/
def cd3 (c : Nat) : List Nat :=
  [c / 256, c / 16 % 16, c % 16]

/-- The module's `newId()`: bump the counter modulo 4096 via `& 0xfff`,
then concatenate `Date.now().toString(16)`, the 3-digit counter and the
stored machine-id string (appending the text `null` if it was never
set, exactly as JavaScript string concatenation would). -/
def newId (now : Nat) (st : GenState) : List Char × GenState :=
  let c := (st.counter + 1) &&& 4095
  (natToHexList now ++ counterHex3 c ++ storedStr st, { st with counter := c })

/-- Argument of `setMachineId`: absent, numeric, or coercing to NaN. -/
inductive MachineArg
  | undef
  | nonNum
  | num (q : JsNum)

/-- The module's `setMachineId(id)`.  `hostByte` stands for the value of
the first two hexadecimal digits of the MD5 hash of the hostname (an
external input); it is used only when the argument is absent.  The
returned first component is `parseInt(ITEM_ID_machine_id, 16)` — the
previously stored machine id, or `none` (NaN) when the stored value was
still `null`. -/
def setMachineId (arg : MachineArg) (hostByte : Nat) (st : GenState) :
    Except Unit (Option Int × GenState) :=
  let result := jsParseInt16 (storedStr st)
  let idNum : Option JsNum := match arg with
    | .num q => some q
    | .nonNum => none
    | .undef => some ⟨((hostByte % 256 : Nat) : Int), 0⟩
  match idNum with
  | none => .error ()
  | some q =>
    if q.mant < 0 ∨ 255 * 2 ^ q.scale < q.mant then .error ()
    else .ok (result,
      { st with machineId := some (sliceLast 2 ('0' :: '0' :: jsNumToString16 q)) })

/-- `new ItemId()` with no argument: mint a fresh string with `newId`
and parse it through the string constructor. -/
def mintOne (now : Nat) (st : GenState) : Except Unit ItemIdRepr × GenState :=
  let p := newId now st
  (itemIdFromString p.1, p.2)

/-- The counter value after `k` successive `newId` calls starting from
counter value `c`. -/
def iterCounter (c : Nat) : Nat → Nat
  | 0 => c
  | k + 1 => (iterCounter c k + 1) &&& 4095

/-- The stored halves of every constructed identifier are 32-bit signed
integers. -/
def WF32 (r : ItemIdRepr) : Prop :=
  -2147483648 ≤ r.low ∧ r.low < 2147483648 ∧ -2147483648 ≤ r.high ∧ r.high < 2147483648

instance (r : ItemIdRepr) : Decidable (WF32 r) := by
  unfold WF32
  infer_instance

/-! ## Digit and parsing lemmas -/

theorem baseDigitChar_facts :
    ∀ d : Fin 16, hexVal (baseDigitChar d.val) = some d.val ∧
      jsWhitespace (baseDigitChar d.val) = false ∧
      baseDigitChar d.val ≠ '-' ∧ baseDigitChar d.val ≠ '+' ∧
      baseDigitChar d.val ≠ 'x' ∧ baseDigitChar d.val ≠ 'X' := by
  decide

theorem hexVal_baseDigitChar {d : Nat} (h : d < 16) :
    hexVal (baseDigitChar d) = some d :=
  (baseDigitChar_facts ⟨d, h⟩).1

theorem isHexDigitChar_baseDigitChar {d : Nat} (h : d < 16) :
    isHexDigitChar (baseDigitChar d) = true := by
  simp [isHexDigitChar, hexVal_baseDigitChar h]

theorem baseDigitsAux_eq_digits {b : Nat} (hb : 2 ≤ b) :
    ∀ fuel n, n ≤ fuel → baseDigitsAux b fuel n = Nat.digits b n := by
  intro fuel
  induction fuel with
  | zero =>
    intro n hn
    interval_cases n
    simp [baseDigitsAux]
  | succ f ih =>
    intro n hn
    by_cases h0 : n = 0
    · simp [baseDigitsAux, h0]
    · rw [baseDigitsAux, if_neg h0,
        Nat.digits_def' (by omega : 1 < b) (Nat.pos_of_ne_zero h0),
        ih (n / b) (by
          have := Nat.div_lt_self (Nat.pos_of_ne_zero h0) (by omega : 1 < b)
          omega)]

theorem natDigitsBE_eq (n : Nat) :
    natDigitsBE 16 n = if n = 0 then [0] else (Nat.digits 16 n).reverse := by
  by_cases h0 : n = 0
  · simp [natDigitsBE, h0]
  · simp only [natDigitsBE, h0, if_false]
    rw [baseDigitsAux_eq_digits (b := 16) (by norm_num) n n le_rfl]

theorem valBE_natDigitsBE (n : Nat) : valBE (natDigitsBE 16 n) = n := by
  rw [natDigitsBE_eq]
  by_cases h0 : n = 0
  · simp [h0, valBE, Nat.ofDigits]
  · simp [h0, valBE, Nat.ofDigits_digits]

theorem natDigitsBE_lt (n : Nat) : ∀ d ∈ natDigitsBE 16 n, d < 16 := by
  rw [natDigitsBE_eq]
  by_cases h0 : n = 0
  · simp [h0]
  · simp only [h0, if_false, List.mem_reverse]
    intro d hd
    exact Nat.digits_lt_base (by norm_num) hd

theorem natDigitsBE_ne_nil (n : Nat) : natDigitsBE 16 n ≠ [] := by
  rw [natDigitsBE_eq]
  by_cases h0 : n = 0
  · simp [h0]
  · simp only [h0, if_false, ne_eq, List.reverse_eq_nil_iff]
    exact Nat.digits_ne_nil_iff_ne_zero.mpr h0

theorem natDigitsBE_len_le {n k : Nat} (hk : 1 ≤ k) (h : n < 16 ^ k) :
    (natDigitsBE 16 n).length ≤ k := by
  rw [natDigitsBE_eq]
  by_cases h0 : n = 0
  · simpa [h0] using hk
  · simp only [h0, if_false, List.length_reverse]
    rw [Nat.digits_len 16 n (by norm_num) h0]
    have := (Nat.lt_pow_iff_log_lt (by norm_num : 1 < 16) h0).mp h
    omega

theorem natDigitsBE_len_eq {n k : Nat} (h1 : 16 ^ k ≤ n) (h2 : n < 16 ^ (k + 1)) :
    (natDigitsBE 16 n).length = k + 1 := by
  have h0 : n ≠ 0 := by
    have : 1 ≤ 16 ^ k := Nat.one_le_pow k 16 (by norm_num)
    omega
  rw [natDigitsBE_eq]
  simp only [h0, if_false, List.length_reverse]
  rw [Nat.digits_len 16 n (by norm_num) h0, Nat.log_eq_of_pow_le_of_lt_pow h1 h2]

theorem natDigitsBE_one_digit {n : Nat} (h : n < 16) : natDigitsBE 16 n = [n] := by
  rw [natDigitsBE_eq]
  by_cases h0 : n = 0
  · simp [h0]
  · rw [if_neg h0, Nat.digits_def' (by norm_num : 1 < 16) (Nat.pos_of_ne_zero h0)]
    rw [Nat.div_eq_of_lt h, Nat.mod_eq_of_lt h]
    simp

theorem natDigitsBE_two_digits {n : Nat} (h1 : 16 ≤ n) (h2 : n < 256) :
    natDigitsBE 16 n = [n / 16, n % 16] := by
  have h0 : n ≠ 0 := by omega
  rw [natDigitsBE_eq, if_neg h0,
    Nat.digits_def' (by norm_num : 1 < 16) (Nat.pos_of_ne_zero h0),
    Nat.digits_def' (by norm_num : 1 < 16) (by omega : 0 < n / 16)]
  have hz : n / 16 / 16 = 0 := by omega
  have hq : n / 16 < 16 := by omega
  rw [hz, Nat.mod_eq_of_lt hq]
  simp

theorem natDigitsBE_three_digits {n : Nat} (h1 : 256 ≤ n) (h2 : n < 4096) :
    natDigitsBE 16 n = [n / 256, n / 16 % 16, n % 16] := by
  have h0 : n ≠ 0 := by omega
  rw [natDigitsBE_eq, if_neg h0,
    Nat.digits_def' (by norm_num : 1 < 16) (Nat.pos_of_ne_zero h0),
    Nat.digits_def' (by norm_num : 1 < 16) (by omega : 0 < n / 16),
    Nat.digits_def' (by norm_num : 1 < 16) (by omega : 0 < n / 16 / 16)]
  have hq : n / 16 / 16 < 16 := by omega
  rw [Nat.mod_eq_of_lt hq, Nat.div_eq_of_lt hq]
  have h256 : n / 16 / 16 = n / 256 := by omega
  simp [h256]

theorem valBE_nil : valBE [] = 0 := rfl

theorem valBE_append (xs ys : List Nat) :
    valBE (xs ++ ys) = valBE xs * 16 ^ ys.length + valBE ys := by
  unfold valBE
  rw [List.reverse_append, Nat.ofDigits_append]
  simp [List.length_reverse]
  ring

theorem valBE_replicate_zero (k : Nat) : valBE (List.replicate k 0) = 0 := by
  induction k with
  | zero => rfl
  | succ m ih =>
    have : List.replicate (m + 1) (0 : Nat) = List.replicate m 0 ++ [0] := by
      rw [List.replicate_succ' m 0]
    rw [this, valBE_append, ih]
    simp [valBE, Nat.ofDigits]

theorem valBE_zeros_prefix (k : Nat) (ds : List Nat) :
    valBE (List.replicate k 0 ++ ds) = valBE ds := by
  rw [valBE_append, valBE_replicate_zero]
  simp

theorem valBE_lt (ds : List Nat) (h : ∀ d ∈ ds, d < 16) :
    valBE ds < 16 ^ ds.length := by
  have := Nat.ofDigits_lt_base_pow_length (l := ds.reverse) (by norm_num : 1 < 16)
    (fun x hx => h x (List.mem_reverse.mp hx))
  simpa [valBE] using this

theorem valBE_take_drop (ds : List Nat) (a : Nat) :
    valBE ds = valBE (ds.take a) * 16 ^ (ds.drop a).length + valBE (ds.drop a) := by
  conv_lhs => rw [← List.take_append_drop a ds]
  exact valBE_append _ _

theorem takeWhile_of_all {p : Char → Bool} :
    ∀ {l : List Char}, (∀ c ∈ l, p c = true) → l.takeWhile p = l := by
  intro l
  induction l with
  | nil => intro _; rfl
  | cons c r ih =>
    intro h
    rw [List.takeWhile_cons, h c (by simp), if_pos rfl,
      ih (fun x hx => h x (by simp [hx]))]

theorem filterMap_hexVal_map {ds : List Nat} (h : ∀ d ∈ ds, d < 16) :
    (ds.map baseDigitChar).filterMap hexVal = ds := by
  induction ds with
  | nil => rfl
  | cons d r ih =>
    rw [List.map_cons, List.filterMap_cons]
    rw [hexVal_baseDigitChar (h d (by simp))]
    rw [ih (fun x hx => h x (by simp [hx]))]

theorem dropHexMark_of_digits {ds : List Nat} (h : ∀ d ∈ ds, d < 16) :
    dropHexMark (ds.map baseDigitChar) = ds.map baseDigitChar := by
  match ds with
  | [] => rfl
  | [d] => rfl
  | d0 :: d1 :: r =>
    have h1 : d1 < 16 := h d1 (by simp)
    have hx := (baseDigitChar_facts ⟨d1, h1⟩).2.2.2.2
    simp only [List.map_cons, dropHexMark]
    rw [if_neg]
    rintro ⟨-, hc⟩
    rcases hc with hc | hc
    · exact hx.1 hc
    · exact hx.2 hc

theorem leadingHexVals_map {ds : List Nat} (h : ∀ d ∈ ds, d < 16) :
    leadingHexVals (ds.map baseDigitChar) = ds := by
  unfold leadingHexVals
  rw [takeWhile_of_all (p := isHexDigitChar) (fun c hc => by
    rcases List.mem_map.mp hc with ⟨d, hd, rfl⟩
    exact isHexDigitChar_baseDigitChar (h d hd))]
  exact filterMap_hexVal_map h

theorem parseHexCore_map {ds : List Nat} (h : ∀ d ∈ ds, d < 16) (hne : ds ≠ []) :
    parseHexCore (ds.map baseDigitChar) = some (valBE ds) := by
  simp only [parseHexCore]
  rw [dropHexMark_of_digits h, leadingHexVals_map h]
  simp [hne]

theorem jsParseInt16_map {ds : List Nat} (h : ∀ d ∈ ds, d < 16) (hne : ds ≠ []) :
    jsParseInt16 (ds.map baseDigitChar) = some ((valBE ds : Nat) : Int) := by
  match ds, hne with
  | d0 :: r, _ =>
    have h0 : d0 < 16 := h d0 (by simp)
    have hf := baseDigitChar_facts ⟨d0, h0⟩
    unfold jsParseInt16
    rw [List.map_cons, List.dropWhile_cons, hf.2.1]
    simp only [Bool.false_eq_true, if_false]
    rw [if_neg hf.2.2.1, if_neg hf.2.2.2.1, ← List.map_cons]
    rw [parseHexCore_map h (by simp)]
    rfl

/-! ## 32-bit coercion and accessor lemmas -/

theorem toInt32_bounds (i : Int) :
    -2147483648 ≤ toInt32 i ∧ toInt32 i < 2147483648 := by
  simp only [toInt32]
  have h1 : 0 ≤ i % 4294967296 := Int.emod_nonneg i (by norm_num)
  have h2 : i % 4294967296 < 4294967296 := Int.emod_lt_of_pos i (by norm_num)
  split <;> omega

theorem toInt32_emod (i : Int) : toInt32 i % 4294967296 = i % 4294967296 := by
  simp only [toInt32]
  have h1 : 0 ≤ i % 4294967296 := Int.emod_nonneg i (by norm_num)
  have h2 : i % 4294967296 < 4294967296 := Int.emod_lt_of_pos i (by norm_num)
  split <;> omega

theorem uNat_toInt32 {v : Nat} (h : v < 4294967296) :
    uNat (toInt32 (v : Int)) = v := by
  simp only [uNat, toInt32]
  have hv : (v : Int) % 4294967296 = (v : Int) := by
    rw [Int.emod_eq_of_lt (by positivity) (by exact_mod_cast h)]
  simp only [hv]
  split <;> split <;> omega

theorem uNat_lt32 {i : Int} (h1 : -2147483648 ≤ i) (h2 : i < 2147483648) :
    uNat i < 4294967296 := by
  unfold uNat
  split <;> omega

theorem uNat_cast {i : Int} (h1 : -2147483648 ≤ i) (h2 : i < 2147483648) :
    (uNat i : Int) = uHalf i := by
  unfold uNat uHalf
  split <;> omega

theorem WF32_toInt32 (lo hi : Int) : WF32 ⟨toInt32 lo, toInt32 hi⟩ := by
  have h1 := toInt32_bounds lo
  have h2 := toInt32_bounds hi
  exact ⟨h1.1, h1.2, h2.1, h2.2⟩

theorem getCounterValue_eq (r : ItemIdRepr) :
    getCounterValue r = lowU r / 256 % 4096 := by
  unfold getCounterValue
  rw [Nat.shiftRight_eq_div_pow]
  rw [show (0xfff : Nat) = 2 ^ 12 - 1 from rfl, Nat.and_pow_two_sub_one_eq_mod]

theorem getMachineId_eq (r : ItemIdRepr) : getMachineId r = lowU r % 256 := by
  unfold getMachineId
  rw [show (0xff : Nat) = 2 ^ 8 - 1 from rfl, Nat.and_pow_two_sub_one_eq_mod]

theorem bitLenAux_le : ∀ fuel n k : Nat, n ≤ fuel → n < 2 ^ k → bitLenAux fuel n ≤ k := by
  intro fuel
  induction fuel with
  | zero =>
    intro n k hn _
    interval_cases n
    simp [bitLenAux]
  | succ f ih =>
    intro n k hn hk
    by_cases h0 : n = 0
    · simp [bitLenAux, h0]
    · rw [bitLenAux, if_neg h0]
      have hk1 : 1 ≤ k := by
        by_contra hcl
        push_neg at hcl
        interval_cases k
        simp at hk
        omega
      have hpow : 2 ^ k = 2 ^ (k - 1) * 2 := by
        rw [← pow_succ]
        congr 1
        omega
      have hn2 : n / 2 < 2 ^ (k - 1) := by omega
      have := ih (n / 2) (k - 1) (by omega) hn2
      omega

theorem bitLen_le {n k : Nat} (h : n < 2 ^ k) : bitLen n ≤ k :=
  bitLenAux_le n n k le_rfl h

/-- Rounding to 53 bits is the identity on dyadics `n / 2 ^ 20` whose
value is an integer, as long as `n < 2 ^ 64`: the discarded tail (at
most 11 bits) is then all zeroes. -/
theorem floorFl53_dvd_exact {n : Nat} (hdvd : 2 ^ 20 ∣ n) (hn : n < 2 ^ 64) :
    floorFl53 n 20 = n / 2 ^ 20 := by
  simp only [floorFl53]
  by_cases hb : bitLen n ≤ 53
  · rw [if_pos hb]
  · rw [if_neg hb]
    have hble : bitLen n ≤ 64 := bitLen_le hn
    have hs20 : bitLen n - 53 ≤ 20 := by omega
    have hsd : 2 ^ (bitLen n - 53) ∣ n := dvd_trans (pow_dvd_pow 2 hs20) hdvd
    have hr : n % 2 ^ (bitLen n - 53) = 0 := Nat.mod_eq_zero_of_dvd hsd
    have hrhe : roundHalfEven n (bitLen n - 53) = n / 2 ^ (bitLen n - 53) := by
      simp only [roundHalfEven]
      rw [if_neg (by omega : ¬(bitLen n - 53 = 0)), hr,
        if_pos (by simp [Nat.pos_pow_of_pos])]
    rw [hrhe, Nat.div_mul_cancel hsd]

/-- The `getTimestamp` double arithmetic is exact on every value whose
low 20 bits are zero: for `t < 2 ^ 44`, flooring the rounded
`t · 2^20 / 2^20` gives back `t`. -/
theorem floorFl53_mul_exact {t : Nat} (ht : t < 17592186044416) :
    floorFl53 (t * 1048576) 20 = t := by
  have h20 : (1048576 : Nat) = 2 ^ 20 := by norm_num
  have hdvd : 2 ^ 20 ∣ t * 1048576 := ⟨t, by rw [h20]; ring⟩
  have h64 : (2 : Nat) ^ 64 = 18446744073709551616 := by norm_num
  have hn : t * 1048576 < 2 ^ 64 := by omega
  rw [floorFl53_dvd_exact hdvd hn]
  omega

/-- The accessors of a value whose halves store the unsigned 32-bit
quantities `lo` and `hi`. -/
theorem accessors_of_halves {lo hi : Nat} (hlo : lo < 4294967296)
    (hhi : hi < 4294967296) :
    lowU ⟨toInt32 (lo : Int), toInt32 (hi : Int)⟩ = lo ∧
    highU ⟨toInt32 (lo : Int), toInt32 (hi : Int)⟩ = hi ∧
    mag ⟨toInt32 (lo : Int), toInt32 (hi : Int)⟩ = hi * 4294967296 + lo ∧
    getCounterValue ⟨toInt32 (lo : Int), toInt32 (hi : Int)⟩ = lo / 256 % 4096 ∧
    getMachineId ⟨toInt32 (lo : Int), toInt32 (hi : Int)⟩ = lo % 256 := by
  have hl : lowU ⟨toInt32 (lo : Int), toInt32 (hi : Int)⟩ = lo := uNat_toInt32 hlo
  have hh : highU ⟨toInt32 (lo : Int), toInt32 (hi : Int)⟩ = hi := uNat_toInt32 hhi
  refine ⟨hl, hh, ?_, ?_, ?_⟩
  · unfold mag; rw [hl, hh]
  · rw [getCounterValue_eq, hl]
  · rw [getMachineId_eq, hl]

/-- Parsing a 16-character all-hex-digit string: the low half is the
value of the last 8 digits, the high half the value of the first 8. -/
theorem itemIdFromString_digits {ds : List Nat} (hlen : ds.length = 16)
    (hd : ∀ d ∈ ds, d < 16) :
    itemIdFromString (ds.map baseDigitChar) =
      .ok ⟨toInt32 ((valBE (ds.drop 8) : Nat) : Int),
           toInt32 ((valBE (ds.take 8) : Nat) : Int)⟩ := by
  unfold itemIdFromString
  rw [if_pos (by simp [hlen])]
  rw [← List.map_drop, ← List.map_take]
  rw [jsParseInt16_map (fun d hdm => hd d (List.drop_subset 8 ds hdm))
      (by intro hc; have := congrArg List.length hc; simp [hlen] at this),
    jsParseInt16_map (fun d hdm => hd d (List.take_subset 8 ds hdm))
      (by intro hc; have := congrArg List.length hc; simp [hlen] at this)]

/-! ## Ordering lemmas -/

theorem compareIds_trichotomy {a b : ItemIdRepr} (ha : WF32 a) (hb : WF32 b) :
    (compareIds a b = 0 ↔ mag a = mag b) ∧
    (compareIds a b = 1 ↔ mag b < mag a) ∧
    (compareIds a b = -1 ↔ mag a < mag b) := by
  obtain ⟨hal1, hal2, hah1, hah2⟩ := ha
  obtain ⟨hbl1, hbl2, hbh1, hbh2⟩ := hb
  have e1 := uNat_cast hal1 hal2
  have e2 := uNat_cast hah1 hah2
  have e3 := uNat_cast hbl1 hbl2
  have e4 := uNat_cast hbh1 hbh2
  have b1 := uNat_lt32 hal1 hal2
  have b2 := uNat_lt32 hah1 hah2
  have b3 := uNat_lt32 hbl1 hbl2
  have b4 := uNat_lt32 hbh1 hbh2
  simp only [compareIds, mag, lowU, highU, ← e1, ← e2, ← e3, ← e4]
  split_ifs <;> refine ⟨?_, ?_, ?_⟩ <;> constructor <;> intro h <;>
    first | exact h.elim | omega

/-! ## Boundary-builder lemmas -/

theorem jsNumToString16_nat (m : Nat) :
    jsNumToString16 ⟨(m : Int), 0⟩ = natToHexList m := by
  simp [jsNumToString16, jsNumAbsToString16, Nat.mod_one]

theorem baseDigitChar_zero : baseDigitChar 0 = '0' := by decide

theorem sliceLast_pad {k : Nat} {l : List Char} (h : l.length ≤ k) :
    sliceLast k (List.replicate k '0' ++ l) = List.replicate (k - l.length) '0' ++ l := by
  unfold sliceLast
  rw [List.length_append, List.length_replicate]
  have hk : k + l.length - k = l.length := by omega
  rw [hk, List.drop_append_of_le_length (by simpa using h)]
  congr 1
  simp

/-- The string built by `createFromTime` for an in-range integer
timestamp, at the digit-value level. -/
theorem createFromTime_nat {t : Nat} (h : t < 17592186044416) :
    createFromTime (.num ⟨(t : Int), 0⟩) =
      .ok ⟨toInt32 ((t % 4096 * 1048576 : Nat) : Int),
           toInt32 ((t / 4096 : Nat) : Int)⟩ := by
  have hguard : ¬((t : Int) < 0 ∨ 17592186044415 * 2 ^ (0 : Nat) < (t : Int)) := by
    push_cast
    omega
  have hstep : createFromTime (.num ⟨(t : Int), 0⟩) =
      if (t : Int) < 0 ∨ 17592186044415 * 2 ^ (0 : Nat) < (t : Int) then .error ()
      else itemIdFromString (sliceLast 11
        (List.replicate 11 '0' ++ jsNumToString16 ⟨(t : Int), 0⟩) ++
          List.replicate 5 '0') := rfl
  rw [hstep, if_neg hguard, jsNumToString16_nat]
  set D : List Nat := natDigitsBE 16 t with hD
  have hall : ∀ d ∈ D, d < 16 := natDigitsBE_lt t
  have hlen : D.length ≤ 11 :=
    natDigitsBE_len_le (by norm_num) (by norm_num; omega)
  have hmap : natToHexList t = D.map baseDigitChar := rfl
  have hrep : ∀ k : Nat, List.replicate k '0' = (List.replicate k 0).map baseDigitChar := by
    intro k
    rw [List.map_replicate, baseDigitChar_zero]
  rw [hmap, hrep 11, ← List.map_append]
  have hlenm : (((List.replicate 11 0).map baseDigitChar).length : Nat) = 11 := by simp
  -- slice the last 11 characters
  have hslice : sliceLast 11 ((List.replicate 11 0 ++ D).map baseDigitChar) =
      (List.replicate (11 - D.length) 0 ++ D).map baseDigitChar := by
    rw [List.map_append, ← hrep 11, sliceLast_pad (by simpa using hlen)]
    rw [List.map_append, ← hrep (11 - D.length)]
    simp
  rw [hslice]
  set P : List Nat := List.replicate (11 - D.length) 0 ++ D with hP
  have hPlen : P.length = 11 := by
    rw [hP]
    simp
    omega
  have hPall : ∀ d ∈ P, d < 16 := by
    intro d hd
    rcases List.mem_append.mp hd with hd | hd
    · have := List.eq_of_mem_replicate hd
      omega
    · exact hall d hd
  have hPval : valBE P = t := by
    rw [hP, valBE_zeros_prefix, hD, valBE_natDigitsBE]
  rw [hrep 5, ← List.map_append]
  set F : List Nat := P ++ List.replicate 5 0 with hF
  have hFlen : F.length = 16 := by
    rw [hF]
    simp [hPlen]
  have hFall : ∀ d ∈ F, d < 16 := by
    intro d hd
    rcases List.mem_append.mp hd with hd | hd
    · exact hPall d hd
    · have := List.eq_of_mem_replicate hd
      omega
  rw [itemIdFromString_digits hFlen hFall]
  have hdrop : F.drop 8 = P.drop 8 ++ List.replicate 5 0 := by
    rw [hF, List.drop_append_of_le_length (by omega)]
  have htake : F.take 8 = P.take 8 := by
    rw [hF, List.take_append_of_le_length (by omega)]
  have hdlen : (P.drop 8).length = 3 := by
    rw [List.length_drop, hPlen]
  have hdbound : valBE (P.drop 8) < 4096 := by
    have := valBE_lt (P.drop 8) (fun d hd => hPall d (List.drop_subset 8 P hd))
    rwa [hdlen] at this
  have hsplit := valBE_take_drop P 8
  rw [hPval, hdlen] at hsplit
  have htakeval : valBE (P.take 8) = t / 4096 := by omega
  have hdropval : valBE (P.drop 8) = t % 4096 := by omega
  have hlowval : valBE (F.drop 8) = t % 4096 * 1048576 := by
    rw [hdrop, valBE_append, valBE_replicate_zero, hdropval]
    simp
  have hhighval : valBE (F.take 8) = t / 4096 := by
    rw [htake, htakeval]
  rw [hlowval, hhighval]

/-- `createFromTime` on an in-range integer timestamp: the resulting
value decodes to exactly that timestamp with counter and machine id 0. -/
theorem createFromTime_props {t : Nat} (h : t < 17592186044416) :
    ∃ r, createFromTime (.num ⟨(t : Int), 0⟩) = .ok r ∧
      getTimestamp r = t ∧ getCounterValue r = 0 ∧ getMachineId r = 0 ∧ WF32 r := by
  refine ⟨_, createFromTime_nat h, ?_, ?_, ?_, WF32_toInt32 _ _⟩
  all_goals
    have hlo : t % 4096 * 1048576 < 4294967296 := by
      have : t % 4096 < 4096 := Nat.mod_lt t (by norm_num)
      nlinarith
    have hhi : t / 4096 < 4294967296 := by omega
    obtain ⟨hl, hh, -, hc, hm⟩ := accessors_of_halves hlo hhi
  · show getTimestamp _ = t
    unfold getTimestamp
    rw [hl, hh]
    have hnum : t / 4096 * 4294967296 + t % 4096 * 1048576 = t * 1048576 := by omega
    rw [hnum]
    exact floorFl53_mul_exact h
  · rw [hc]
    have e1 : t % 4096 * 1048576 = t % 4096 * 4096 * 256 := by ring
    rw [e1, Nat.mul_div_cancel _ (by norm_num : 0 < 256), Nat.mul_mod_left]
  · rw [hm]
    have e1 : t % 4096 * 1048576 = t % 4096 * 4096 * 256 := by ring
    rw [e1, Nat.mul_mod_left]

/-! ## Generator and machine-id lemmas -/

theorem land4095 (n : Nat) : n &&& 4095 = n % 4096 := by
  rw [show (4095 : Nat) = 2 ^ 12 - 1 from rfl, Nat.and_pow_two_sub_one_eq_mod]

theorem valBE_pair (a b : Nat) : valBE [a, b] = a * 16 + b := by
  simp [valBE, Nat.ofDigits]
  ring

theorem valBE_triple (a b c : Nat) : valBE [a, b, c] = a * 256 + b * 16 + c := by
  simp [valBE, Nat.ofDigits]
  ring

theorem cd3_lt {c : Nat} (h : c < 4096) : ∀ d ∈ cd3 c, d < 16 := by
  intro d hd
  simp only [cd3, List.mem_cons, List.not_mem_nil, or_false] at hd
  rcases hd with rfl | rfl | rfl <;> omega

theorem valBE_cd3 {c : Nat} (_h : c < 4096) : valBE (cd3 c) = c := by
  rw [cd3, valBE_triple]
  omega

theorem counterHex3_digits {c : Nat} (h : c < 4096) :
    counterHex3 c = (cd3 c).map baseDigitChar := by
  unfold counterHex3 cd3
  rcases Nat.lt_or_ge c 16 with hc | hc
  · rw [if_neg (by omega), if_neg (by omega), natToHexList, natToBaseList,
      natDigitsBE_one_digit hc]
    have h1 : c / 256 = 0 := by omega
    have h2 : c / 16 % 16 = 0 := by omega
    have h3 : c % 16 = c := by omega
    simp [h1, h2, h3, baseDigitChar_zero]
  · rcases Nat.lt_or_ge c 256 with hc2 | hc2
    · rw [if_neg (by omega), if_pos (by omega), natToHexList, natToBaseList,
        natDigitsBE_two_digits hc hc2]
      have h1 : c / 256 = 0 := by omega
      have h2 : c / 16 % 16 = c / 16 := by
        have : c / 16 < 16 := by omega
        omega
      simp [h1, h2, baseDigitChar_zero]
    · rw [if_pos (by omega), natToHexList, natToBaseList,
        natDigitsBE_three_digits hc2 h]
      simp

theorem machineStr_eq {m : Nat} (hm : m < 256) :
    sliceLast 2 ('0' :: '0' :: natToHexList m) =
      [m / 16, m % 16].map baseDigitChar := by
  rcases Nat.lt_or_ge m 16 with hc | hc
  · rw [natToHexList, natToBaseList, natDigitsBE_one_digit hc]
    have h1 : m / 16 = 0 := by omega
    have h2 : m % 16 = m := by omega
    simp [sliceLast, h1, h2, baseDigitChar_zero]
  · rw [natToHexList, natToBaseList, natDigitsBE_two_digits hc hm]
    simp [sliceLast]

theorem jsParseInt16_machineStr {m : Nat} (hm : m < 256) :
    jsParseInt16 ([m / 16, m % 16].map baseDigitChar) = some ((m : Nat) : Int) := by
  rw [jsParseInt16_map (by
      intro d hd
      simp only [List.mem_cons, List.not_mem_nil, or_false] at hd
      rcases hd with rfl | rfl <;> omega)
    (by simp)]
  rw [valBE_pair]
  congr 1
  omega

theorem setMachineId_nat {m : Nat} (hm : m ≤ 255) (hostByte : Nat) (st : GenState) :
    setMachineId (.num ⟨(m : Int), 0⟩) hostByte st =
      .ok (jsParseInt16 (storedStr st),
        { st with machineId := some ([m / 16, m % 16].map baseDigitChar) }) := by
  have hstep : setMachineId (.num ⟨(m : Int), 0⟩) hostByte st =
      if (m : Int) < 0 ∨ 255 * 2 ^ (0 : Nat) < (m : Int) then .error ()
      else .ok (jsParseInt16 (storedStr st),
        { st with machineId := some (sliceLast 2 ('0' :: '0' :: jsNumToString16 ⟨(m : Int), 0⟩)) }) := rfl
  rw [hstep, if_neg (by push_cast; omega), jsNumToString16_nat,
    machineStr_eq (by omega)]

theorem setMachineId_err_num {q : JsNum} (h : q.mant < 0 ∨ 255 * 2 ^ q.scale < q.mant)
    (hostByte : Nat) (st : GenState) :
    setMachineId (.num q) hostByte st = .error () := by
  have hstep : setMachineId (.num q) hostByte st =
      if q.mant < 0 ∨ 255 * 2 ^ q.scale < q.mant then .error ()
      else .ok (jsParseInt16 (storedStr st),
        { st with machineId := some (sliceLast 2 ('0' :: '0' :: jsNumToString16 q)) }) := rfl
  rw [hstep, if_pos h]

/-- Minting from a state whose stored machine-id string consists of two
hexadecimal digit characters: the mint succeeds and its machine-id and
counter fields decode to the stored byte and the bumped counter. -/
theorem mintOne_ok {now : Nat} (h1 : 1099511627776 ≤ now) (h2 : now < 17592186044416)
    (st : GenState) (mlist : List Nat) (hml : mlist.length = 2)
    (hmall : ∀ d ∈ mlist, d < 16)
    (hstore : st.machineId = some (mlist.map baseDigitChar)) :
    ∃ r, (mintOne now st).1 = .ok r ∧ WF32 r ∧
      getMachineId r = valBE mlist ∧
      getCounterValue r = (st.counter + 1) % 4096 := by
  set c : Nat := (st.counter + 1) &&& 4095 with hc
  have hc4096 : c < 4096 := by
    rw [hc, land4095]
    exact Nat.mod_lt _ (by norm_num)
  have hcmod : c = (st.counter + 1) % 4096 := by
    rw [hc, land4095]
  have hstr : (mintOne now st).1 =
      itemIdFromString (natToHexList now ++ counterHex3 c ++ storedStr st) := rfl
  rw [hstr]
  set A : List Nat := natDigitsBE 16 now with hA
  have hAall : ∀ d ∈ A, d < 16 := natDigitsBE_lt now
  have hAlen : A.length = 11 := by
    have := natDigitsBE_len_eq (n := now) (k := 10) (by norm_num; omega) (by norm_num; omega)
    simpa using this
  have hss : storedStr st = mlist.map baseDigitChar := by
    simp only [storedStr, hstore]
  have hnh : natToHexList now = A.map baseDigitChar := rfl
  have hNDform : natToHexList now ++ counterHex3 c ++ storedStr st =
      (A ++ (cd3 c ++ mlist)).map baseDigitChar := by
    rw [hnh, counterHex3_digits hc4096, hss, ← List.map_append, ← List.map_append,
      List.append_assoc]
  rw [hNDform]
  set ND : List Nat := A ++ (cd3 c ++ mlist) with hND
  have hNDlen : ND.length = 16 := by
    rw [hND]
    simp [hAlen, hml, cd3]
  have hNDall : ∀ d ∈ ND, d < 16 := by
    intro d hd
    rcases List.mem_append.mp hd with hd | hd
    · exact hAall d hd
    · rcases List.mem_append.mp hd with hd | hd
      · exact cd3_lt hc4096 d hd
      · exact hmall d hd
  rw [itemIdFromString_digits hNDlen hNDall]
  have hMbound : valBE mlist < 256 := by
    have := valBE_lt mlist hmall
    rwa [hml] at this
  have hdrop : ND.drop 8 = A.drop 8 ++ (cd3 c ++ mlist) := by
    rw [hND, List.drop_append_of_le_length (by omega)]
  have hA3len : (A.drop 8).length = 3 := by
    rw [List.length_drop, hAlen]
  have hA3bound : valBE (A.drop 8) < 4096 := by
    have := valBE_lt (A.drop 8) (fun d hd => hAall d (List.drop_subset 8 A hd))
    rwa [hA3len] at this
  have hlowval : valBE (ND.drop 8) =
      valBE (A.drop 8) * 1048576 + (c * 256 + valBE mlist) := by
    rw [hdrop, valBE_append, valBE_append, valBE_cd3 hc4096, hml,
      (by simp [cd3, hml] : (cd3 c ++ mlist).length = 5)]
    norm_num
  have hlo : valBE (ND.drop 8) < 4294967296 := by
    rw [hlowval]
    omega
  have hhi : valBE (ND.take 8) < 4294967296 := by
    have hlen8 : (ND.take 8).length = 8 := by
      rw [List.length_take, hNDlen]
      omega
    have := valBE_lt (ND.take 8) (fun d hd => hNDall d (List.take_subset 8 ND hd))
    rw [hlen8] at this
    omega
  obtain ⟨-, -, -, hcv, hmv⟩ := accessors_of_halves hlo hhi
  refine ⟨_, rfl, WF32_toInt32 _ _, ?_, ?_⟩
  · rw [hmv, hlowval]
    omega
  · rw [hcv, hlowval, ← hcmod]
    omega

/-! ## Support for the generator claims -/

theorem counterHex3_length {c : Nat} (h : c < 4096) : (counterHex3 c).length = 3 := by
  rw [counterHex3_digits h]
  simp [cd3]

theorem iterCounter_formula (c k : Nat) :
    iterCounter c (k + 1) = (c + (k + 1)) % 4096 := by
  induction k with
  | zero => rw [iterCounter, iterCounter, land4095]
  | succ j ih =>
    rw [iterCounter, ih, land4095]
    omega

/-- Minting with a stored machine-id string containing the non-hex
character `.` yields a 16-character string that fails `test`. -/
theorem newId_dot_breaks {now : Nat} (h1 : 1099511627776 ≤ now)
    (h2 : now < 17592186044416) (st : GenState)
    (hstore : st.machineId = some ['.', '8']) :
    (newId now st).1.length = 16 ∧ jsTest (newId now st).1 = false := by
  have hc4096 : (st.counter + 1) &&& 4095 < 4096 := by
    rw [land4095]
    exact Nat.mod_lt _ (by norm_num)
  have hss : storedStr st = ['.', '8'] := by
    simp only [storedStr, hstore]
  have hstr : (newId now st).1 =
      natToHexList now ++ counterHex3 ((st.counter + 1) &&& 4095) ++ storedStr st := rfl
  have hAlen : (natDigitsBE 16 now).length = 11 := by
    have := natDigitsBE_len_eq (n := now) (k := 10) (by norm_num; omega) (by norm_num; omega)
    simpa using this
  have hlen : (newId now st).1.length = 16 := by
    rw [hstr, hss]
    simp [natToHexList, natToBaseList, hAlen, counterHex3_length hc4096]
  refine ⟨hlen, ?_⟩
  have hmem : '.' ∈ (newId now st).1 := by
    rw [hstr, hss]
    simp
  have hall : (newId now st).1.all isHexDigitChar = false := by
    rw [List.all_eq_false]
    exact ⟨'.', hmem, by decide⟩
  simp [jsTest, hall]

/-! ## The claims -/

/-- **C1** (code bug).  The spec's round-trip claim — for every valid
16-hex-digit string `s`, parsing and re-rendering yields `lowercase(s)`,
each half padded to exactly 8 hex digits, 16 characters in all — fails
on the code: `stringify` pads a nonnegative half with at most a single
`0`, so any half below `0x1000000` renders short.  The valid input
`"150828ba00000000"` (the identifier that `createFromDate(new
Date('2015-10-20'))` builds, whose expected rendering in the repository's
own test suite is that very string) parses to halves `(0, 0x150828ba)`
and renders back as the 10-character string `"150828ba00"`. -/
theorem claim_C1_roundtrip_failing_input :
    jsTest "150828ba00000000".data = true ∧
    itemIdFromString "150828ba00000000".data = .ok ⟨0, 352856250⟩ ∧
    createFromTime (.num ⟨1445299200000, 0⟩) = .ok ⟨0, 352856250⟩ ∧
    valueOf ⟨0, 352856250⟩ = "150828ba00".data ∧
    (valueOf ⟨0, 352856250⟩).length = 10 ∧
    valueOf ⟨0, 352856250⟩ ≠ "150828ba00000000".data := by
  refine ⟨by decide, by rfl, by rfl, by rfl, by rfl, by decide⟩

/-- **C2** (code bug).  The claim — `timestamp()` equals `⌊u / 2^20⌋`,
the encoded 44-bit timestamp field — states the function's clear
intent: its own doc comment promises "the timestamp from when the ID
was generated" and the module doc reserves bits 63..20 for it.  But the
source computes `Math.floor((high * 4096) + (lowU / 1048576))` in
53-bit doubles, and when the low 20 bits of `u` are close enough to
`2^20` the correctly rounded addition reaches the next integer: for the
valid input `"14fb3ee4b75fffff"` (timestamp field 1441832782709,
counter 4095, machine id 255) the code returns 1441832782710, one more
than `⌊u / 2^20⌋`.  The claim's example `"14fb3ee4b75dce3d"` is
unaffected and decodes exactly as claimed, and the counter and machine
id fields always decompose exactly. -/
theorem claim_C2_timestamp_rounding_bug :
    itemIdFromString "14fb3ee4b75fffff".data = .ok ⟨-1218445313, 352009956⟩ ∧
    mag ⟨-1218445313, 352009956⟩ / 1048576 = 1441832782709 ∧
    getTimestamp ⟨-1218445313, 352009956⟩ = 1441832782710 ∧
    getTimestamp ⟨-1218445313, 352009956⟩ ≠ mag ⟨-1218445313, 352009956⟩ / 1048576 ∧
    getCounterValue ⟨-1218445313, 352009956⟩ = 4095 ∧
    getMachineId ⟨-1218445313, 352009956⟩ = 255 ∧
    itemIdFromString "14fb3ee4b75dce3d".data = .ok ⟨-1218589123, 352009956⟩ ∧
    getTimestamp ⟨-1218589123, 352009956⟩ = 1441832782709 ∧
    getCounterValue ⟨-1218589123, 352009956⟩ = 3534 ∧
    getMachineId ⟨-1218589123, 352009956⟩ = 61 :=
  ⟨by rfl, by decide, by decide, by decide, by decide, by decide,
    by rfl, by decide, by decide, by decide⟩

/-- **C3** (confirmed).  `compare` returns 0 / 1 / -1 exactly according
to the comparison of the unsigned 64-bit magnitudes of its operands
(each stored half reinterpreted as unsigned by adding `2^32` when
negative, high half first); it is reflexive (`compare x x = 0`),
transitive and antisymmetric, i.e. a strict total order on magnitudes. -/
theorem claim_C3_compare (a b c : ItemIdRepr)
    (ha : WF32 a) (hb : WF32 b) (hc : WF32 c) :
    (compareIds a b = 0 ↔ mag a = mag b) ∧
    (compareIds a b = 1 ↔ mag b < mag a) ∧
    (compareIds a b = -1 ↔ mag a < mag b) ∧
    compareIds a a = 0 ∧
    (compareIds a b = 1 → compareIds b c = 1 → compareIds a c = 1) ∧
    (compareIds a b = 1 → compareIds b a = -1) ∧
    (compareIds a b = 0 → compareIds b a = 0) := by
  obtain ⟨e0, e1, e2⟩ := compareIds_trichotomy ha hb
  obtain ⟨f0, f1, f2⟩ := compareIds_trichotomy hb hc
  obtain ⟨g0, g1, g2⟩ := compareIds_trichotomy ha hc
  obtain ⟨k0, k1, k2⟩ := compareIds_trichotomy hb ha
  obtain ⟨m0, m1, m2⟩ := compareIds_trichotomy ha ha
  refine ⟨e0, e1, e2, m0.mpr rfl, ?_, ?_, ?_⟩
  · intro hab hbc
    exact g1.mpr (lt_trans (f1.mp hbc) (e1.mp hab))
  · intro hab
    exact k2.mpr (e1.mp hab)
  · intro hab
    exact k0.mpr (e0.mp hab).symm

/-- **C4** (confirmed).  `createFromTime` succeeds on every integer
timestamp in `[0, 2^44 - 1]`, and the resulting identifier decodes to
exactly that timestamp with counter 0 and machine id 0; it throws for
every integer outside that range and for non-number arguments. -/
theorem claim_C4_createFromTime :
    (∀ t : Nat, t ≤ 17592186044415 →
      ∃ r, createFromTime (.num ⟨(t : Int), 0⟩) = .ok r ∧
        getTimestamp r = t ∧ getCounterValue r = 0 ∧ getMachineId r = 0) ∧
    (∀ i : Int, i < 0 ∨ 17592186044415 < i →
      createFromTime (.num ⟨i, 0⟩) = .error ()) ∧
    createFromTime .nonNum = .error () := by
  refine ⟨?_, ?_, rfl⟩
  · intro t ht
    obtain ⟨r, hr, h1, h2, h3, -⟩ := createFromTime_props (t := t) (by omega)
    exact ⟨r, hr, h1, h2, h3⟩
  · intro i hi
    have hstep : createFromTime (.num ⟨i, 0⟩) =
        if i < 0 ∨ 17592186044415 * 2 ^ (0 : Nat) < i then .error ()
        else itemIdFromString (sliceLast 11
          (List.replicate 11 '0' ++ jsNumToString16 ⟨i, 0⟩) ++
            List.replicate 5 '0') := rfl
    rw [hstep, if_pos (by simpa using hi)]

/-- Witness for C3 at three concrete well-formed values. -/
theorem claim_C3_compare_witness :
    WF32 (⟨5, 0⟩ : ItemIdRepr) ∧ WF32 (⟨3, 0⟩ : ItemIdRepr) ∧
    WF32 (⟨-1, 7⟩ : ItemIdRepr) ∧
    ((compareIds ⟨5, 0⟩ ⟨3, 0⟩ = 0 ↔ mag ⟨5, 0⟩ = mag ⟨3, 0⟩) ∧
      (compareIds ⟨5, 0⟩ ⟨3, 0⟩ = 1 ↔ mag ⟨3, 0⟩ < mag ⟨5, 0⟩) ∧
      (compareIds ⟨5, 0⟩ ⟨3, 0⟩ = -1 ↔ mag ⟨5, 0⟩ < mag ⟨3, 0⟩) ∧
      compareIds ⟨5, 0⟩ ⟨5, 0⟩ = 0 ∧
      (compareIds ⟨5, 0⟩ ⟨3, 0⟩ = 1 → compareIds ⟨3, 0⟩ ⟨-1, 7⟩ = 1 →
        compareIds ⟨5, 0⟩ ⟨-1, 7⟩ = 1) ∧
      (compareIds ⟨5, 0⟩ ⟨3, 0⟩ = 1 → compareIds ⟨3, 0⟩ ⟨5, 0⟩ = -1) ∧
      (compareIds ⟨5, 0⟩ ⟨3, 0⟩ = 0 → compareIds ⟨3, 0⟩ ⟨5, 0⟩ = 0)) :=
  ⟨by decide, by decide, by decide,
    claim_C3_compare ⟨5, 0⟩ ⟨3, 0⟩ ⟨-1, 7⟩ (by decide) (by decide) (by decide)⟩

/-- Witness for C4 at both range boundaries, the example timestamp, and
two out-of-range inputs. -/
theorem claim_C4_createFromTime_witness :
    ((0 : Nat) ≤ 17592186044415) ∧
    (∃ r, createFromTime (.num ⟨((0 : Nat) : Int), 0⟩) = .ok r ∧
      getTimestamp r = 0 ∧ getCounterValue r = 0 ∧ getMachineId r = 0) ∧
    ((1441922517727 : Nat) ≤ 17592186044415) ∧
    (∃ r, createFromTime (.num ⟨((1441922517727 : Nat) : Int), 0⟩) = .ok r ∧
      getTimestamp r = 1441922517727 ∧ getCounterValue r = 0 ∧ getMachineId r = 0) ∧
    ((17592186044415 : Nat) ≤ 17592186044415) ∧
    (∃ r, createFromTime (.num ⟨((17592186044415 : Nat) : Int), 0⟩) = .ok r ∧
      getTimestamp r = 17592186044415 ∧ getCounterValue r = 0 ∧ getMachineId r = 0) ∧
    ((-1 : Int) < 0 ∨ (17592186044415 : Int) < -1) ∧
    createFromTime (.num ⟨(-1 : Int), 0⟩) = .error () ∧
    ((17592186044416 : Int) < 0 ∨ (17592186044415 : Int) < 17592186044416) ∧
    createFromTime (.num ⟨(17592186044416 : Int), 0⟩) = .error () :=
  ⟨by decide, claim_C4_createFromTime.1 0 (by decide),
    by decide, claim_C4_createFromTime.1 1441922517727 (by decide),
    by decide, claim_C4_createFromTime.1 17592186044415 (by decide),
    Or.inl (by decide), claim_C4_createFromTime.2.1 (-1) (Or.inl (by decide)),
    Or.inr (by decide),
    claim_C4_createFromTime.2.1 17592186044416 (Or.inr (by decide))⟩

/-- **C5** (counterexample).  The claim says `setMachineId` returns the
previously stored machine id, *0 if never set*.  At the never-set state
the code computes `parseInt(null, 16)`, i.e. parses the string `null`,
which is NaN — not 0: calling `setMachineId(0)` on the initial state
returns NaN (`none`) rather than `0`. -/
theorem claim_C5_counterexample :
    setMachineId (.num ⟨0, 0⟩) 0 ⟨0, none⟩ =
      .ok (none, ⟨0, some ['0', '0']⟩) ∧ (none : Option Int) ≠ some 0 :=
  ⟨rfl, by decide⟩

/-- **C5** (amended).  For every explicit integer `m` in `[0, 255]`,
`setMachineId(m)` stores `m` (as its two-hex-digit string), leaves the
counter untouched, and returns the previously stored machine id — which
is the previously stored byte whenever one was ever stored, and NaN
(not 0) when never set; every identifier minted afterwards decodes its
machine id to `m`. -/
theorem claim_C5_setMachineId (m : Nat) (hm : m ≤ 255) (p : Nat) (hp : p ≤ 255)
    (st : GenState) (hstore : st.machineId = some ([p / 16, p % 16].map baseDigitChar))
    (hostByte : Nat) :
    ∃ st' : GenState,
      setMachineId (.num ⟨(m : Int), 0⟩) hostByte st = .ok (some ((p : Nat) : Int), st') ∧
      st'.machineId = some ([m / 16, m % 16].map baseDigitChar) ∧
      st'.counter = st.counter ∧
      ∀ now : Nat, 1099511627776 ≤ now → now < 17592186044416 →
        ∃ r, (mintOne now st').1 = .ok r ∧ getMachineId r = m := by
  have hprev : jsParseInt16 (storedStr st) = some ((p : Nat) : Int) := by
    have hss : storedStr st = [p / 16, p % 16].map baseDigitChar := by
      simp only [storedStr, hstore]
    rw [hss, jsParseInt16_machineStr (by omega)]
  refine ⟨{ st with machineId := some ([m / 16, m % 16].map baseDigitChar) },
    ?_, rfl, rfl, ?_⟩
  · rw [setMachineId_nat hm, hprev]
  intro now h1 h2
  obtain ⟨r, hr, -, hmid, -⟩ := mintOne_ok h1 h2
    { st with machineId := some ([m / 16, m % 16].map baseDigitChar) }
    [m / 16, m % 16] (by simp)
    (by
      intro d hd
      simp only [List.mem_cons, List.not_mem_nil, or_false] at hd
      rcases hd with rfl | rfl <;> omega)
    rfl
  refine ⟨r, hr, ?_⟩
  rw [hmid, valBE_pair]
  omega

/-- Witness for C5 (amended): set machine id 42 over a state storing 0,
then mint. -/
theorem claim_C5_setMachineId_witness :
    ((42 : Nat) ≤ 255) ∧ ((0 : Nat) ≤ 255) ∧
    ((⟨5, some ['0', '0']⟩ : GenState).machineId =
      some ([0 / 16, 0 % 16].map baseDigitChar)) ∧
    (∃ st' : GenState,
      setMachineId (.num ⟨((42 : Nat) : Int), 0⟩) 0 ⟨5, some ['0', '0']⟩ =
        .ok (some ((0 : Nat) : Int), st') ∧
      st'.machineId = some ([42 / 16, 42 % 16].map baseDigitChar) ∧
      st'.counter = (⟨5, some ['0', '0']⟩ : GenState).counter ∧
      ∀ now : Nat, 1099511627776 ≤ now → now < 17592186044416 →
        ∃ r, (mintOne now st').1 = .ok r ∧ getMachineId r = 42) :=
  ⟨by decide, by decide, by decide,
    claim_C5_setMachineId 42 (by decide) 0 (by decide) ⟨5, some ['0', '0']⟩
      (by decide) 0⟩

/-- **C6** (confirmed).  `setMachineId` throws for every explicit
argument that is non-numeric or outside `[0, 255]` (in particular for
256); the stored state is unchanged by the failed call, so identifiers
minted afterwards still decode the previously stored machine id. -/
theorem claim_C6_setMachineId_err (arg : MachineArg) (hostByte : Nat) (st : GenState)
    (harg : arg = .nonNum ∨
      ∃ q, arg = .num q ∧ (q.mant < 0 ∨ 255 * 2 ^ q.scale < q.mant)) :
    setMachineId arg hostByte st = .error () ∧
    ∀ p : Nat, p ≤ 255 → st.machineId = some ([p / 16, p % 16].map baseDigitChar) →
      ∀ now : Nat, 1099511627776 ≤ now → now < 17592186044416 →
        ∃ r, (mintOne now st).1 = .ok r ∧ getMachineId r = p := by
  constructor
  · rcases harg with rfl | ⟨q, rfl, hq⟩
    · rfl
    · exact setMachineId_err_num hq hostByte st
  · intro p hp hstore now h1 h2
    obtain ⟨r, hr, -, hmid, -⟩ := mintOne_ok h1 h2 _
      [p / 16, p % 16] (by simp)
      (by
        intro d hd
        simp only [List.mem_cons, List.not_mem_nil, or_false] at hd
        rcases hd with rfl | rfl <;> omega)
      hstore
    refine ⟨r, hr, ?_⟩
    rw [hmid, valBE_pair]
    omega

/-- Witness for C6: `setMachineId(256)` fails and the machine id 61
stored before is still what the next mint carries. -/
theorem claim_C6_setMachineId_err_witness :
    (MachineArg.num ⟨256, 0⟩ = .nonNum ∨
      ∃ q, MachineArg.num ⟨256, 0⟩ = .num q ∧
        (q.mant < 0 ∨ 255 * 2 ^ q.scale < q.mant)) ∧
    (setMachineId (.num ⟨256, 0⟩) 0 ⟨9, some ['3', 'd']⟩ = .error () ∧
      ∀ p : Nat, p ≤ 255 →
        (⟨9, some ['3', 'd']⟩ : GenState).machineId =
          some ([p / 16, p % 16].map baseDigitChar) →
        ∀ now : Nat, 1099511627776 ≤ now → now < 17592186044416 →
          ∃ r, (mintOne now (⟨9, some ['3', 'd']⟩ : GenState)).1 = .ok r ∧
            getMachineId r = p) :=
  ⟨Or.inr ⟨⟨256, 0⟩, rfl, Or.inr (by decide)⟩,
    claim_C6_setMachineId_err (.num ⟨256, 0⟩) 0 ⟨9, some ['3', 'd']⟩
      (Or.inr ⟨⟨256, 0⟩, rfl, Or.inr (by decide)⟩)⟩

/-- **C7** (counterexample).  The claim says the two-argument
constructor raises whenever an argument lies outside `[-2^31, 2^32-1]`.
It does not: `new ItemId(2^32, 0)` succeeds and silently stores halves
`(0, 0)`. -/
theorem claim_C7_counterexample :
    itemIdFromTwo (.num ⟨4294967296, 0⟩) (.num ⟨0, 0⟩) = .ok ⟨0, 0⟩ ∧
    ¬(-2147483648 ≤ (4294967296 : Int) ∧ (4294967296 : Int) ≤ 4294967295) :=
  ⟨rfl, by decide⟩

/-- **C7** (amended).  Construction raises exactly when a
parsed/derived field is NaN: the two-argument form fails precisely when
an argument coerces to NaN, and otherwise succeeds for *every* numeric
pair — each stored half keeps only the low 32 bits of the truncated
argument (`ToInt32`), with no range check; the 16-character-string form
fails precisely when `parseInt` of one of its two 8-character slices is
NaN. -/
theorem claim_C7_construction :
    (∀ qa qb : JsNum, itemIdFromTwo (.num qa) (.num qb) =
      .ok ⟨toInt32 (jsTruncToInt qa), toInt32 (jsTruncToInt qb)⟩) ∧
    (∀ a b : JsArg, itemIdFromTwo a b = .error () ↔ a = .nonNum ∨ b = .nonNum) ∧
    (∀ i : Int, toInt32 i % 4294967296 = i % 4294967296 ∧
      -2147483648 ≤ toInt32 i ∧ toInt32 i < 2147483648) ∧
    (∀ s : List Char, s.length = 16 →
      (itemIdFromString s = .error () ↔
        jsParseInt16 (s.drop 8) = none ∨ jsParseInt16 (s.take 8) = none)) := by
  refine ⟨fun qa qb => rfl, ?_, fun i => ⟨toInt32_emod i, toInt32_bounds i⟩, ?_⟩
  · intro a b
    cases a <;> cases b <;> simp [itemIdFromTwo]
  · intro s hs
    unfold itemIdFromString
    rw [if_pos hs]
    rcases h8 : jsParseInt16 (s.drop 8) with - | lo <;>
      rcases h16 : jsParseInt16 (s.take 8) with - | hi <;> simp

/-- Witness for C7 (amended): the string-form error criterion at a
valid hex input and at an input whose low slice is not parseable. -/
theorem claim_C7_construction_witness :
    ("14fb3ee4b75dce3d".data.length = 16) ∧
    (itemIdFromString "14fb3ee4b75dce3d".data = .error () ↔
      jsParseInt16 ("14fb3ee4b75dce3d".data.drop 8) = none ∨
      jsParseInt16 ("14fb3ee4b75dce3d".data.take 8) = none) ∧
    ("14fb3ee4zzzzzzzz".data.length = 16) ∧
    (itemIdFromString "14fb3ee4zzzzzzzz".data = .error () ↔
      jsParseInt16 ("14fb3ee4zzzzzzzz".data.drop 8) = none ∨
      jsParseInt16 ("14fb3ee4zzzzzzzz".data.take 8) = none) :=
  ⟨by decide, claim_C7_construction.2.2.2 "14fb3ee4b75dce3d".data (by decide),
    by decide, claim_C7_construction.2.2.2 "14fb3ee4zzzzzzzz".data (by decide)⟩

/-- **C8** (confirmed).  The zero-argument string conversion is the
fixed 16-character hex codec, while an explicit radix goes through the
generic 64-bit two's-complement conversion, which does not zero-pad:
for the identifier parsed from `"14fb3ee4b75dce3d"`, `toString(2)` is
the 61-character binary expansion and `toString()` the original string,
and for the value with halves `(1, 0)` the explicit `toString(16)` is
`"1"` while the zero-argument form differs. -/
theorem claim_C8_toString_radix :
    (∀ r : ItemIdRepr, jsToString r none = stringify r.low r.high) ∧
    (∀ r : ItemIdRepr, ∀ b : Nat, jsToString r (some b) = longToStringRadix r b) ∧
    itemIdFromString "14fb3ee4b75dce3d".data = .ok ⟨-1218589123, 352009956⟩ ∧
    jsToString ⟨-1218589123, 352009956⟩ (some 2) =
      "1010011111011001111101110010010110111010111011100111000111101".data ∧
    jsToString ⟨-1218589123, 352009956⟩ none = "14fb3ee4b75dce3d".data ∧
    jsToString ⟨-1218589123, 352009956⟩ (some 32) = "19upusirlrjht".data ∧
    jsToString ⟨1, 0⟩ (some 16) = "1".data ∧
    jsToString ⟨1, 0⟩ (some 16) ≠ jsToString ⟨1, 0⟩ none :=
  ⟨fun r => rfl, fun r b => rfl, by rfl, by decide, by decide, by decide,
    by decide, by decide⟩

/-- **C9** (confirmed).  Every `newId` call replaces the counter `c` by
`(c + 1) mod 4096` (silent wraparound), the new value is embedded in
the minted string as exactly 3 zero-padded hex digits, and 4096
consecutive calls use 4096 pairwise distinct counter values. -/
theorem claim_C9_counter :
    (∀ (st : GenState) (now : Nat),
      (newId now st).2.counter = (st.counter + 1) % 4096 ∧
      (newId now st).2.counter < 4096 ∧
      (newId now st).2.machineId = st.machineId ∧
      (newId now st).1 =
        natToHexList now ++ counterHex3 ((st.counter + 1) % 4096) ++ storedStr st) ∧
    (∀ c : Nat, c < 4096 →
      (counterHex3 c).length = 3 ∧
      (counterHex3 c).filterMap hexVal = cd3 c ∧ valBE (cd3 c) = c) ∧
    (∀ st : GenState, ∀ now : Nat, (newId now st).2.counter = iterCounter st.counter 1) ∧
    (∀ c k : Nat, iterCounter c (k + 1) = (c + (k + 1)) % 4096) ∧
    (∀ c i j : Nat, 1 ≤ i → i < j → j ≤ 4096 →
      iterCounter c i ≠ iterCounter c j) := by
  refine ⟨?_, ?_, fun st now => rfl, iterCounter_formula, ?_⟩
  · intro st now
    refine ⟨by rw [show (newId now st).2.counter = (st.counter + 1) &&& 4095 from rfl,
        land4095], ?_, rfl, ?_⟩
    · rw [show (newId now st).2.counter = (st.counter + 1) &&& 4095 from rfl, land4095]
      exact Nat.mod_lt _ (by norm_num)
    · rw [show (newId now st).1 =
        natToHexList now ++ counterHex3 ((st.counter + 1) &&& 4095) ++ storedStr st
          from rfl, land4095]
  · intro c hc
    refine ⟨counterHex3_length hc, ?_, valBE_cd3 hc⟩
    rw [counterHex3_digits hc, filterMap_hexVal_map (cd3_lt hc)]
  · intro c i j hi hij hj
    rcases Nat.exists_eq_add_of_lt (by omega : 0 < i) with ⟨i', hi'⟩
    rcases Nat.exists_eq_add_of_lt (by omega : 0 < j) with ⟨j', hj'⟩
    rw [show i = i' + 1 by omega, show j = j' + 1 by omega,
      iterCounter_formula, iterCounter_formula]
    intro hcl
    omega

/-- Witness for C9: the 3-digit rendering at the wraparound boundary
and the pairwise distinctness of the first and last of 4096 calls. -/
theorem claim_C9_counter_witness :
    ((4095 : Nat) < 4096) ∧
    ((counterHex3 4095).length = 3 ∧
      (counterHex3 4095).filterMap hexVal = cd3 4095 ∧ valBE (cd3 4095) = 4095) ∧
    ((1 : Nat) ≤ 1) ∧ ((1 : Nat) < 4096) ∧ ((4096 : Nat) ≤ 4096) ∧
    iterCounter 4095 1 ≠ iterCounter 4095 4096 :=
  ⟨by decide, claim_C9_counter.2.1 4095 (by decide), by decide, by decide, by decide,
    claim_C9_counter.2.2.2.2 4095 1 4096 (by decide) (by decide) (by decide)⟩

/-- **C10** (confirmed).  For the non-integer numeric input 0.5
(strictly between 0 and 255), `setMachineId` succeeds and stores the
two-character string `.8`, which contains the non-hex character `.`;
every subsequent `newId` then returns a 16-character string for which
`test` is false — minted identifiers are no longer valid hex strings
while the setter reported success. -/
theorem claim_C10_fractional_machineId (hostByte : Nat) (st : GenState) :
    setMachineId (.num ⟨1, 1⟩) hostByte st =
      .ok (jsParseInt16 (storedStr st), { st with machineId := some ['.', '8'] }) ∧
    isHexDigitChar '.' = false ∧
    (∀ st' : GenState, st'.machineId = some ['.', '8'] →
      ∀ now : Nat, 1099511627776 ≤ now → now < 17592186044416 →
        (newId now st').1.length = 16 ∧ jsTest (newId now st').1 = false) := by
  refine ⟨rfl, by decide, ?_⟩
  intro st' hstore now h1 h2
  exact newId_dot_breaks h1 h2 st' hstore

/-- Witness for C10: the broken mint at a concrete state and clock. -/
theorem claim_C10_fractional_machineId_witness :
    ((⟨0, some ['.', '8']⟩ : GenState).machineId = some ['.', '8']) ∧
    ((1099511627776 : Nat) ≤ 1441832782709) ∧
    ((1441832782709 : Nat) < 17592186044416) ∧
    ((newId 1441832782709 (⟨0, some ['.', '8']⟩ : GenState)).1.length = 16 ∧
      jsTest (newId 1441832782709 (⟨0, some ['.', '8']⟩ : GenState)).1 = false) :=
  ⟨rfl, by decide, by decide,
    (claim_C10_fractional_machineId 0 ⟨0, some ['0', '0']⟩).2.2
      ⟨0, some ['.', '8']⟩ rfl 1441832782709 (by decide) (by decide)⟩

end ItemIdKit
